import Mathlib

/-!
Verification development for the `cfg` package: an INI-like configuration
parser, in-memory store and file rewriter (src/cfg.go).  The Go code is
shallowly embedded: strings are Lean `String`s (ASCII inputs), Go maps are
association lists with overwrite-on-insert semantics, the character-level
parser state machine is transcribed flag for flag, and the in-place file
writer is modelled as a pure function from the file's line list to a new
line list.
-/

namespace Cfg

/-- ASCII lower-casing of one character (models Go `strings.ToLower`,
restricted to the ASCII range our inputs use). -/
def lowerChar (c : Char) : Char :=
  if 65 ≤ c.toNat ∧ c.toNat ≤ 90 then Char.ofNat (c.toNat + 32) else c

/-- Lower-case a whole string (Go `strings.ToLower`). -/
def lowerStr (s : String) : String := ⟨s.data.map lowerChar⟩

/-- ASCII whitespace, as trimmed by Go `strings.TrimSpace`. -/
def isWS (c : Char) : Bool := c == ' ' || c == '\t' || c == '\n' || c == '\r'

/-- Trim leading and trailing whitespace from a character list. -/
def trimChars (s : List Char) : List Char :=
  ((s.dropWhile isWS).reverse.dropWhile isWS).reverse

/-- Go `strings.TrimSpace` on a buffered character list. -/
def trimStr (s : List Char) : String := ⟨trimChars s⟩

/-- A section's key mapping: ordered association list, Go map semantics. -/
abbrev Sect := List (String × List String)

/-- The nested mapping held by a `Store` (`cfgStore` in cfg.go). -/
abbrev CfgMap := List (String × Sect)

/-- Go map read `m[k]`: `none` models the missing-key case. -/
def alGet {α : Type} : List (String × α) → String → Option α
  | [], _ => none
  | (k', v) :: t, k => if k' = k then some v else alGet t k

/-- Go map write `m[k] = v`: overwrite in place, append when absent. -/
def alSet {α : Type} : List (String × α) → String → α → List (String × α)
  | [], k, v => [(k, v)]
  | (k', v') :: t, k, v => if k' = k then (k, v) :: t else (k', v') :: alSet t k v

/-- Double map read `m[sec][key]` (reading through a missing section is a
nil-map read in Go, which yields the zero value, i.e. not-found). -/
def lookup2 (m : CfgMap) (sec key : String) : Option (List String) :=
  match alGet m sec with
  | none => none
  | some s => alGet s key

/-- `cfgStore[sec] = make(map[string][]string)`: installs a fresh empty
section map, overwriting any previous content under that name. -/
def setSec (m : CfgMap) (sec : String) : CfgMap := alSet m sec []

/-- `cfgStore[sec][key] = v` when the section map exists.  (Writing through
a missing section is a Go panic; callers model that case explicitly.) -/
def setKey2 (m : CfgMap) (sec key : String) (v : List String) : CfgMap :=
  match alGet m sec with
  | none => m
  | some s => alSet m sec (alSet s key v)

/-- `strings.Replace(val, "\\", "", -1)`: removes every backslash. -/
def stripBS (s : String) : String := ⟨s.data.filter (fun c => c != '\\')⟩

/-- `Store.Get` from cfg.go.  The Go code writes the stripped values back
through the slice it obtained from the map (`result[i] = ...`), and that
slice shares its backing array with the list stored in the map, so the
store's own list is overwritten in place; the model returns the mutated
store as the second component. -/
def Store.Get (m : CfgMap) (sec0 key0 : String) : List String × CfgMap :=
  let sec := lowerStr sec0
  let key := lowerStr key0
  match lookup2 m sec key with
  | none => ([""], m)
  | some result =>
    if result.length = 0 then ([""], m)
    else
      let stripped := result.map stripBS
      (stripped, setKey2 m sec key stripped)

/-- `Store.ListKeys` from cfg.go: no case folding; a missing section gives
Go `nil`, modelled as the empty list (as is a present-but-empty section). -/
def Store.ListKeys (m : CfgMap) (sec0 : String) : List String :=
  match alGet m sec0 with
  | none => []
  | some v => v.map Prod.fst

/-- `Store.Exists` from cfg.go, transcribed with its control flow intact:
no case folding, and the early `return` once the section is found makes the
key-checking branch unreachable with `found = true`. -/
def Store.Exists (m : CfgMap) (input : List String) : Bool :=
  if input.length = 0 then false
  else
    let found := (alGet m (input.headD "")).isSome
    if found then true
    else if 1 < input.length then
      if found then (lookup2 m (input.headD "") ((input.drop 1).headD "")).isSome
      else found
    else found

/-- Outcomes of `Load` that are not a parsed store: `cfgError` is the
`cfgErr(file, line)` value ("Syntax error found in FILE on line N."), and
`panicNilMap` models the Go runtime panic "assignment to entry in nil map"
raised by `out.cfgStore[section][key] = val` when no section was opened. -/
inductive LoadErr where
  | cfgError (file : String) (line : Nat)
  | panicNilMap
deriving DecidableEq

/-- The parser's mode flag set (`cfg_HEADER`, `cfg_KEY`, `cfg_COMMA`,
`cfg_ESCAPE` bits of the Go `flag` integer). -/
structure PFlags where
  header : Bool
  key : Bool
  comma : Bool
  esc : Bool
deriving DecidableEq

/-- The mutable state of `Load`'s scan loop. -/
structure LState where
  flags : PFlags
  buf : List Char
  sec : String
  key : String
  val : List String
  store : CfgMap
  last : Nat
  line : Nat
deriving DecidableEq

/-- `ContainsAny(txt, "[ & ]")` from the `[` branch of `Load`: true when
the line holds any of `[`, space, `&`, `]`. -/
def containsAnyBr (txt : List Char) : Bool :=
  txt.any (fun c => c == '[' || c == ' ' || c == '&' || c == ']')

/-- The inner character loop of `Load` (cfg.go lines 183-247).  `txt` is
the full line including its trailing newline, `l` its length, `i` the
current index; returning `.ok` models both running off the line and Go's
`continue scanLoop`. -/
def loadChars (file : String) (line l : Nat) (txt : List Char) :
    Nat → List Char → LState → Except LoadErr LState
  | _, [], st => .ok st
  | i, ch :: rest, st =>
    if st.flags.esc then
      if i = l - 1 ∧ st.buf ≠ [] then .error (.cfgError file line)
      else loadChars file line l txt (i + 1) rest
        { st with buf := st.buf ++ [ch], flags := { st.flags with esc := false } }
    else if ch = '[' then
      if st.flags.key then .error (.cfgError file st.last)
      else if 2 < l ∧ containsAnyBr txt then
        let sec := lowerStr ⟨(txt.drop 1).take (l - 3)⟩
        .ok { st with
              sec := sec
              last := line
              flags := { st.flags with header := true }
              store := setSec st.store sec }
      else .error (.cfgError file line)
    else if ch = '#' then .ok st
    else if ch = '=' then
      if st.flags.key then .error (.cfgError file line)
      else loadChars file line l txt (i + 1) rest
        { st with
          flags := { st.flags with key := true }
          key := lowerStr (trimStr st.buf)
          buf := []
          last := line }
    else if ch = ',' then
      if !st.flags.key then .error (.cfgError file line)
      else loadChars file line l txt (i + 1) rest
        { st with
          val := st.val ++ [trimStr st.buf]
          buf := []
          last := line
          flags := { st.flags with comma := true } }
    else if ch = '\n' then
      if !st.flags.key then .error (.cfgError file line)
      else if st.flags.comma then
        loadChars file line l txt (i + 1) rest
          { st with flags := { st.flags with comma := false } }
      else
        match alGet st.store st.sec with
        | none => .error .panicNilMap
        | some sectMap =>
          .ok { st with
                flags := { st.flags with header := false, key := false }
                buf := []
                val := []
                last := line
                store := alSet st.store st.sec
                  (alSet sectMap st.key (st.val ++ [trimStr st.buf])) }
    else
      let fl := if ch = '\\' then { st.flags with esc := true } else st.flags
      if st.buf = [] ∧ (ch = ' ' ∨ ch = '\t') then
        loadChars file line l txt (i + 1) rest { st with flags := fl }
      else if i = l - 1 ∧ st.buf ≠ [] then .error (.cfgError file line)
      else loadChars file line l txt (i + 1) rest
        { st with flags := { fl with comma := false }, buf := st.buf ++ [ch] }

/-- The line loop of `Load`: appends the significant newline to each
scanned line, skips lines shorter than two characters, and reports an
error at the `last` active line when the file ends with a key open. -/
def loadLines (file : String) : List String → LState → Except LoadErr LState
  | [], st => if st.flags.key then .error (.cfgError file st.last) else .ok st
  | ln :: rest, st =>
    let st := { st with line := st.line + 1 }
    let txt := ln.data ++ ['\n']
    if txt.length < 2 then loadLines file rest st
    else
      match loadChars file st.line txt.length txt 0 txt st with
      | .error e => .error e
      | .ok st' => loadLines file rest st'

/-- `Load` from cfg.go: parse a whole file (given as its list of lines,
newline terminators stripped as `bufio.Scanner` does) into the nested
mapping, or fail. -/
def Load (file : String) (lines : List String) : Except LoadErr CfgMap :=
  match loadLines file lines
      ⟨⟨false, false, false, false⟩, [], "", "", [], [], 0, 0⟩ with
  | .error e => .error e
  | .ok st => .ok st.store

/-- The validation error of `SetFile`: "Invalid character found in value:
'CH' found in \"VAL\"." -/
inductive SetErr where
  | invalidChar (ch : Char) (val : String)
deriving DecidableEq

/-- The characters rejected by `SetFile`'s validation loop. -/
def isReserved (c : Char) : Bool := c == '[' || c == ']' || c == ','

/-- The validation loop at the top of `SetFile`: first reserved character
of the first offending value, scanning values and characters in order. -/
def findReserved : List String → Option (Char × String)
  | [] => none
  | v :: t =>
    match v.data.find? isReserved with
    | some c => some (c, v)
    | none => findReserved t

/-- `no_end_comma` from `SetFile`: every character overwrites the result
(space and tab fall through into the default branch), so it reports
whether the last character is not a comma (true for an empty line). -/
def no_end_comma (input : String) : Bool :=
  input.data.foldl (fun _ ch => ch != ',') true

/-- The `cfg_HEADER` and `cfg_KEY` bits of `cfgSeek`'s flag word. -/
structure SeekFlags where
  fHeader : Bool
  fKey : Bool
deriving DecidableEq

/-- `strings.HasPrefix`. -/
def hasPfx (p s : String) : Bool := p.data.isPrefixOf s.data

/-- `strings.Split(b, "=")[0]`: the text before the first `=`. -/
def splitEqHead (b : String) : String := ⟨b.data.takeWhile (fun c => c != '=')⟩

/-- The `cfgSeek` closure of `SetFile` (cfg.go lines 394-437): scans the
lower-cased lines for the section and key, returning the last line of the
prefix to keep (`upper`), the first line of the suffix to keep (`lower`,
`none` modelling Go's `-1`), and the flags.  The loop's final `return
line, -1, flag` discards the accumulated `upper` in favour of the total
line count. -/
def cfgSeekGo (sec key : String) :
    List String → Nat → Nat → SeekFlags → Nat × Option Nat × SeekFlags
  | [], line, _upper, fl => (line, none, fl)
  | b0 :: rest, line, upper, fl =>
    let line := line + 1
    let b := lowerStr b0
    let l := b.data.length
    if (0 < l ∧ b.data.headD ' ' = '#') ∨ l = 0 then
      cfgSeekGo sec key rest line upper fl
    else if fl.fHeader = false then
      if hasPfx ("[" ++ sec ++ "]") b then
        cfgSeekGo sec key rest line line { fl with fHeader := true }
      else
        cfgSeekGo sec key rest line upper fl
    else if b.data.headD ' ' = '[' then
      (upper, some (upper + 1), fl)
    else
      let p : Nat × SeekFlags :=
        if fl.fKey = false ∧ hasPfx key b then
          if trimStr (splitEqHead b).data = key then (line - 1, { fl with fKey := true })
          else (upper, fl)
        else (upper, fl)
      if p.2.fKey ∧ no_end_comma b then (p.1, some (line + 1), p.2)
      else cfgSeekGo sec key rest line p.1 p.2

/-- `cfgSeek` applied from line 0 with clear flags. -/
def cfgSeek (sec key : String) (lines : List String) : Nat × Option Nat × SeekFlags :=
  cfgSeekGo sec key lines 0 0 ⟨false, false⟩

/-- The `txt` block assembled by `SetFile`: an optional `[section]` line,
then `key = value0` and the remaining values aligned under `value0`; the
loop breaks at the first empty value. -/
def valueLines (key : String) : List String → List String
  | [] => []
  | v0 :: rest =>
    if v0 = "" then []
    else
      let spacer : String := ⟨List.replicate (key ++ " = ").length ' '⟩
      (key ++ " = " ++ v0) :: (rest.takeWhile (fun v => v != "")).map (fun v => spacer ++ v)

/-- `txt` including the new `[section]` header when none exists yet. -/
def buildTxt (hasHeader : Bool) (sec key : String) (value : List String) : List String :=
  (if hasHeader then [] else ["[" ++ sec ++ "]"]) ++ valueLines key value

/-- Every element but the last gets the trailing comma `SetFile` writes. -/
def commaJoin : List String → List String
  | [] => []
  | [x] => [x]
  | x :: y :: t => (x ++ ",") :: commaJoin (y :: t)

/-- The injection loop of `SetFile`: with no pre-existing header the first
`txt` element is written as a blank line plus the header (and skips the
comma logic); all further elements are comma-joined. -/
def renderTxt (hasHeader : Bool) (txt : List String) : List String :=
  if hasHeader then commaJoin txt
  else
    match txt with
    | [] => []
    | h :: rest => "" :: h :: commaJoin rest

/-- `SetFile` from cfg.go, as a pure function on the file's line list:
validate the values, locate the replacement window with `cfgSeek`, and
assemble prefix (`copyFile(0, head)` = `take head`), replacement block,
and suffix (`copyFile(tail-1, -1)` = `drop (tail-1)`, skipped when the
seek returned `-1`).  I/O (temp file staging, truncate-and-copy) always
succeeds in the model, so the only error is the validation one. -/
def SetFile (lines : List String) (sec0 key0 : String) (value : List String) :
    Except SetErr (List String) :=
  match findReserved value with
  | some cv => .error (.invalidChar cv.1 cv.2)
  | none =>
    let sec := lowerStr sec0
    let key := lowerStr key0
    match cfgSeek sec key lines with
    | (head, tailOpt, fl) =>
      let mid := renderTxt fl.fHeader (buildTxt fl.fHeader sec key value)
      let tailPart := match tailOpt with
        | none => []
        | some t => lines.drop (t - 1)
      .ok (lines.take head ++ mid ++ tailPart)

/-- A `Store` paired with the content of its backing file, for the claims
about `Store.Set` keeping the two in sync. -/
structure StoreF where
  lines : List String
  cfg : CfgMap
deriving DecidableEq

/-- `Store.Set` from cfg.go: lower-case the names, let `SetFile` write the
file first (an error leaves both the file and the mapping untouched), then
create the section map if missing and commit the values.  Mirrors Go's
receiver mutation by returning the new state plus the optional error. -/
def StoreF.set (s : StoreF) (sec0 key0 : String) (value : List String) :
    StoreF × Option SetErr :=
  let sec := lowerStr sec0
  let key := lowerStr key0
  match SetFile s.lines sec key value with
  | .error e => (s, some e)
  | .ok newLines =>
    let cfg := match alGet s.cfg sec with
      | none => alSet s.cfg sec []
      | some _ => s.cfg
    ({ lines := newLines, cfg := setKey2 cfg sec key value }, none)

/-- A store with one section `s` holding one key `a`, for exercising the
two-argument form of `Exists` on a key that is absent. -/
def demoC1 : CfgMap := [("s", [("a", ["v"])])]

/-- A store with one lower-cased section `sec` holding one key `k`. -/
def demoC2 : CfgMap := [("sec", [("k", ["v"])])]

/-- A store for exercising `Get`: key `b` holds an escaped value, key `c`
holds an empty value list. -/
def demoG : CfgMap := [("a", [("b", ["x\\y"]), ("c", [])])]

/-- A file in which section `s` (holding key `k1`) is followed by a second
section `t`. -/
def linesC5 : List String := ["[s]", "k1 = v", "[t]", "k2 = w"]

/-- A body line of the target section that `cfgSeek` walks over without
effect when the sought key is absent: after lower-casing it is empty, a
comment, or it is not a section header and does not carry the key — either
the key is not even a string prefix of the line, or (as for line `k1 = v`
against key `k`) the text before the first `=`, trimmed, differs from the
key, which is exactly the occurrence check `cfgSeek` performs.  This makes
"the key does not occur in the section" concrete. -/
def plainBody (key b : String) : Bool :=
  (lowerStr b).data.isEmpty || (lowerStr b).data.headD ' ' == '#' ||
    (!((lowerStr b).data.headD ' ' == '[') &&
      (!(key.data.isPrefixOf (lowerStr b).data) ||
        !(trimStr (splitEqHead (lowerStr b)).data == key)))

end Cfg

namespace Cfg

theorem alGet_alSet_self {α : Type} (l : List (String × α)) (k : String) (v : α) :
    alGet (alSet l k v) k = some v := by
  induction l with
  | nil => simp [alSet, alGet]
  | cons h t ih =>
    obtain ⟨k', v'⟩ := h
    by_cases hk : k' = k
    · simp [alSet, hk, alGet]
    · simp [alSet, hk, alGet, ih]

theorem lookup2_setKey2_of_found (m : CfgMap) (sec key : String) (s0 : Sect)
    (v : List String) (h : alGet m sec = some s0) :
    lookup2 (setKey2 m sec key v) sec key = some v := by
  unfold setKey2
  rw [h]
  unfold lookup2
  rw [alGet_alSet_self]
  exact alGet_alSet_self s0 key v

theorem findReserved_none_of_clean (vs : List String)
    (h : ∀ v ∈ vs, ∀ c ∈ v.data, isReserved c = false) :
    findReserved vs = none := by
  induction vs with
  | nil => rfl
  | cons v t ih =>
    have hv : v.data.find? isReserved = none := by
      rw [List.find?_eq_none]
      intro c hc
      simp [h v (by simp) c hc]
    simp [findReserved, hv]
    exact ih (fun v' hv' c hc => h v' (by simp [hv']) c hc)

theorem findReserved_some_of_dirty (vs : List String)
    (h : ∃ v ∈ vs, ∃ c ∈ v.data, isReserved c = true) :
    ∃ c v, findReserved vs = some (c, v) ∧ v ∈ vs ∧ c ∈ v.data ∧ isReserved c = true := by
  induction vs with
  | nil => simp at h
  | cons v t ih =>
    cases hf : v.data.find? isReserved with
    | some c =>
      refine ⟨c, v, ?_, by simp, List.mem_of_find?_eq_some hf, List.find?_some hf⟩
      simp [findReserved, hf]
    | none =>
      have hclean : ∀ c ∈ v.data, ¬ isReserved c = true := by
        rw [List.find?_eq_none] at hf
        exact hf
      obtain ⟨v', hv', c', hc', hres⟩ := h
      rcases List.mem_cons.mp hv' with rfl | hmem
      · exact absurd hres (hclean c' hc')
      · obtain ⟨c0, v0, heq, hm, hcd, hr⟩ := ih ⟨v', hmem, c', hc', hres⟩
        exact ⟨c0, v0, by simp [findReserved, hf, heq], by simp [hm], hcd, hr⟩

theorem setFile_error_of_reserved (lines : List String) (a b : String)
    (vs : List String) (c : Char) (v : String)
    (hfind : findReserved vs = some (c, v)) :
    SetFile lines a b vs = .error (.invalidChar c v) := by
  unfold SetFile
  rw [hfind]

theorem setFile_ok_of_clean (lines : List String) (a b : String)
    (vs : List String) (hfind : findReserved vs = none) :
    ∃ nl, SetFile lines a b vs = .ok nl := by
  unfold SetFile
  rw [hfind]
  exact ⟨_, rfl⟩

theorem storeF_set_ok (st : StoreF) (a b : String) (vs : List String)
    (hfind : findReserved vs = none) :
    (StoreF.set st a b vs).2 = none ∧
    lookup2 (StoreF.set st a b vs).1.cfg (lowerStr a) (lowerStr b) = some vs := by
  obtain ⟨nl, hsf⟩ := setFile_ok_of_clean st.lines (lowerStr a) (lowerStr b) vs hfind
  simp only [StoreF.set]
  rw [hsf]
  refine ⟨rfl, ?_⟩
  cases halg : alGet st.cfg (lowerStr a) with
  | none =>
    simp only [halg]
    exact lookup2_setKey2_of_found _ _ _ [] vs
      (alGet_alSet_self st.cfg (lowerStr a) [])
  | some s0 =>
    simp only [halg]
    exact lookup2_setKey2_of_found _ _ _ s0 vs halg

end Cfg

namespace Cfg

/-- C1: `Store.Exists` with two arguments returns `true` as soon as the
section exists, ignoring whether the key exists in that section: on the
store `{s ↦ {a ↦ [v]}}`, `Exists("s", "b")` is `true` although key `b` is
absent from section `s` (the key-checking branch of the Go code sits
behind an early `return` and is unreachable). -/
theorem exists_two_args_ignores_key :
    Store.Exists demoC1 ["s", "b"] = true ∧ lookup2 demoC1 "s" "b" = none := by
  constructor <;> rfl

/-- C3: loading a file whose first line is `key = value`, with no section
header opened, does not return the syntax error the claim requires: the
commit `out.cfgStore[section][key] = val` writes through the nil map under
the never-assigned section name and panics. -/
theorem load_keyline_without_section_panics :
    Load "conf" ["key = value"] = .error .panicNilMap := by rfl

/-- C6: a line carrying `[` without a matching `]` is silently accepted as
a section header rather than rejected: `ContainsAny(txt, "[ & ]")` is
always true once a `[` is present, so `Load` on the single line `[abc`
succeeds and records the (truncated) section name `ab`. -/
theorem load_accepts_unterminated_header :
    Load "conf" ["[abc"] = .ok [("ab", [])] := by rfl

/-- C9: parsing a section followed by `key3 = a,` / `       b,` /
`       c` collapses the continuation lines into the single ordered value
list `["a", "b", "c"]` under `key3`. -/
theorem multiline_continuation_collapses :
    Load "conf" ["[sec]", "key3 = a,", "       b,", "       c"] =
      .ok [("sec", [("key3", ["a", "b", "c"])])] := by rfl

/-- C2 (counterexample): `Exists` and `ListKeys` do not case-fold their
argument: on the store `{sec ↦ {k ↦ [v]}}` they answer differently for
`"SEC"` and its lower-cased form `"sec"`. -/
theorem case_fold_counterexample :
    Store.Exists demoC2 ["SEC"] ≠ Store.Exists demoC2 [lowerStr "SEC"] ∧
    Store.ListKeys demoC2 "SEC" ≠ Store.ListKeys demoC2 (lowerStr "SEC") := by
  constructor <;> decide

/-- C5 (counterexample): with file `[s] / k1 = v / [t] / k2 = w`, setting
the fresh key `k9` in section `s` inserts `k9 = x` immediately after the
`[s]` header line, not immediately before the `[t]` boundary as the claim
states (all existing lines are preserved, but the insertion point
differs). -/
theorem set_insertion_point_counterexample :
    SetFile linesC5 "s" "k9" ["x"] =
      .ok ["[s]", "k9 = x", "k1 = v", "[t]", "k2 = w"] ∧
    ["[s]", "k9 = x", "k1 = v", "[t]", "k2 = w"] ≠
      ["[s]", "k1 = v", "k9 = x", "[t]", "k2 = w"] := by
  exact ⟨rfl, by decide⟩

/-- C2 (amended): `Get` and `Set` depend on their section and key names
only through the lower-cased form, so names differing only in letter case
are interchangeable for those two operations (`Exists` and `ListKeys`, by
the counterexample, are not case-folded). -/
theorem get_set_fold_only (m : CfgMap) (st : StoreF) (a a' b b' : String)
    (v : List String) (ha : lowerStr a = lowerStr a')
    (hb : lowerStr b = lowerStr b') :
    Store.Get m a b = Store.Get m a' b' ∧
    StoreF.set st a b v = StoreF.set st a' b' v := by
  constructor
  · simp only [Store.Get]
    rw [ha, hb]
  · simp only [StoreF.set]
    rw [ha, hb]

/-- Witness for C2's amended theorem at concrete mixed-case names. -/
theorem get_set_fold_only_witness :
    Store.Get demoC2 "SEc" "K" = Store.Get demoC2 "sec" "k" ∧
    StoreF.set ⟨[], []⟩ "SEc" "K" ["v"] = StoreF.set ⟨[], []⟩ "sec" "k" ["v"] :=
  ⟨(get_set_fold_only demoC2 ⟨[], []⟩ "SEc" "sec" "K" "k" ["v"]
      (by decide) (by decide)).1,
   (get_set_fold_only demoC2 ⟨[], []⟩ "SEc" "sec" "K" "k" ["v"]
      (by decide) (by decide)).2⟩

/-- C4: when some value contains a reserved character `[`, `]` or `,`,
`Store.Set` returns the validation error identifying the offending
character and value, and the store (file lines and in-memory mapping
alike) is returned unchanged: the validation loop sits before any file
staging in `SetFile`, and `Store.Set` returns before its map update. -/
theorem set_rejects_reserved (st : StoreF) (a b : String) (vs : List String)
    (h : ∃ v ∈ vs, ∃ c ∈ v.data, isReserved c = true) :
    ∃ c v, StoreF.set st a b vs = (st, some (SetErr.invalidChar c v)) ∧
      v ∈ vs ∧ c ∈ v.data ∧ isReserved c = true := by
  obtain ⟨c, v, hfind, hm, hcd, hr⟩ := findReserved_some_of_dirty vs h
  refine ⟨c, v, ?_, hm, hcd, hr⟩
  simp only [StoreF.set]
  rw [setFile_error_of_reserved st.lines (lowerStr a) (lowerStr b) vs c v hfind]

/-- Witness for C4 at the spec's own example `Set("s","k","a,b")`. -/
theorem set_rejects_reserved_witness :
    ∃ c v, StoreF.set ⟨["[s]"], [("s", [])]⟩ "s" "k" ["a,b"] =
      (⟨["[s]"], [("s", [])]⟩, some (SetErr.invalidChar c v)) ∧
      v ∈ ["a,b"] ∧ c ∈ v.data ∧ isReserved c = true :=
  set_rejects_reserved ⟨["[s]"], [("s", [])]⟩ "s" "k" ["a,b"]
    ⟨"a,b", by simp, ',', by decide, by decide⟩

/-- C7: for a non-empty value list free of the reserved characters, `Set`
succeeds and a following `Get` with the same (arbitrary-case) names
returns exactly the values, modulo the backslash escape markers that `Get`
strips from each returned value. -/
theorem set_get_roundtrip (st : StoreF) (a b : String) (vs : List String)
    (hne : vs ≠ [])
    (hclean : ∀ v ∈ vs, ∀ c ∈ v.data, isReserved c = false) :
    (StoreF.set st a b vs).2 = none ∧
    (Store.Get (StoreF.set st a b vs).1.cfg a b).1 = vs.map stripBS := by
  obtain ⟨h2, hlook⟩ := storeF_set_ok st a b vs (findReserved_none_of_clean vs hclean)
  refine ⟨h2, ?_⟩
  simp only [Store.Get]
  rw [hlook]
  simp only [List.length_eq_zero]
  rw [if_neg hne]

/-- Witness for C7: set then get `["v1", "v\\2"]` on an empty store. -/
theorem set_get_roundtrip_witness :
    (StoreF.set ⟨[], []⟩ "Sec" "Key" ["v1", "v\\2"]).2 = none ∧
    (Store.Get (StoreF.set ⟨[], []⟩ "Sec" "Key" ["v1", "v\\2"]).1.cfg
      "Sec" "Key").1 = ["v1", "v\\2"].map stripBS :=
  set_get_roundtrip ⟨[], []⟩ "Sec" "Key" ["v1", "v\\2"] (by decide) (by decide)

/-- C8: `Get` depends on its arguments only through their lower-cased
form, returns `[""]` when the pair is absent and when the stored list is
empty, and otherwise returns the stored values with every backslash
removed. -/
theorem get_spec (m : CfgMap) (a a' b b' : String)
    (ha : lowerStr a = lowerStr a') (hb : lowerStr b = lowerStr b') :
    Store.Get m a b = Store.Get m a' b' ∧
    (lookup2 m (lowerStr a) (lowerStr b) = none → (Store.Get m a b).1 = [""]) ∧
    (lookup2 m (lowerStr a) (lowerStr b) = some [] → (Store.Get m a b).1 = [""]) ∧
    (∀ vs, lookup2 m (lowerStr a) (lowerStr b) = some vs → vs ≠ [] →
      (Store.Get m a b).1 = vs.map stripBS) := by
  refine ⟨?_, ?_, ?_, ?_⟩
  · simp only [Store.Get]
    rw [ha, hb]
  · intro hnone
    simp only [Store.Get]
    rw [hnone]
  · intro hempty
    simp only [Store.Get]
    rw [hempty]
    rfl
  · intro vs hlook hne
    simp only [Store.Get]
    rw [hlook]
    simp only [List.length_eq_zero]
    rw [if_neg hne]

/-- Witness for C8: each behaviour of `Get` at a concrete store. -/
theorem get_spec_witness :
    Store.Get demoG "A" "B" = Store.Get demoG "a" "b" ∧
    (Store.Get demoG "a" "zz").1 = [""] ∧
    (Store.Get demoG "a" "c").1 = [""] ∧
    (Store.Get demoG "a" "b").1 = ["x\\y"].map stripBS :=
  ⟨(get_spec demoG "A" "a" "B" "b" (by decide) (by decide)).1,
   (get_spec demoG "a" "a" "zz" "zz" rfl rfl).2.1 (by decide),
   (get_spec demoG "a" "a" "c" "c" rfl rfl).2.2.1 (by decide),
   (get_spec demoG "a" "a" "b" "b" rfl rfl).2.2.2 ["x\\y"] (by decide) (by decide)⟩

/-- C10: `Get` is not a pure read: when the stored list for the
(case-folded) pair is non-empty and contains backslash characters, the
slice writes in the Go code overwrite the stored list in place, so the
store coming out of `Get` holds the backslash-stripped values — the list
returned and the list subsequently stored coincide. -/
theorem get_strips_in_store (m : CfgMap) (a b : String) (vs : List String)
    (hfound : lookup2 m (lowerStr a) (lowerStr b) = some vs) (hne : vs ≠ [])
    (hesc : ∃ v ∈ vs, '\\' ∈ v.data) :
    (Store.Get m a b).1 = vs.map stripBS ∧
    (Store.Get m a b).2 =
      setKey2 m (lowerStr a) (lowerStr b) (vs.map stripBS) ∧
    lookup2 (Store.Get m a b).2 (lowerStr a) (lowerStr b) =
      some (vs.map stripBS) := by
  have hsec : ∃ s0, alGet m (lowerStr a) = some s0 := by
    unfold lookup2 at hfound
    cases halg : alGet m (lowerStr a) with
    | none => rw [halg] at hfound; exact absurd hfound (by simp)
    | some s0 => exact ⟨s0, rfl⟩
  obtain ⟨s0, hs0⟩ := hsec
  have hget : Store.Get m a b =
      (vs.map stripBS, setKey2 m (lowerStr a) (lowerStr b) (vs.map stripBS)) := by
    simp only [Store.Get]
    rw [hfound]
    simp only [List.length_eq_zero]
    rw [if_neg hne]
  refine ⟨by rw [hget], by rw [hget], ?_⟩
  rw [hget]
  exact lookup2_setKey2_of_found m (lowerStr a) (lowerStr b) s0 _ hs0

/-- Witness for C10: a stored value `p\q` is stripped to `pq` both in the
returned list and in the store left behind. -/
theorem get_strips_in_store_witness :
    (Store.Get [("s", [("k", ["p\\q"])])] "S" "K").1 = ["p\\q"].map stripBS ∧
    (Store.Get [("s", [("k", ["p\\q"])])] "S" "K").2 =
      setKey2 [("s", [("k", ["p\\q"])])] (lowerStr "S") (lowerStr "K")
        (["p\\q"].map stripBS) ∧
    lookup2 (Store.Get [("s", [("k", ["p\\q"])])] "S" "K").2
      (lowerStr "S") (lowerStr "K") = some (["p\\q"].map stripBS) :=
  get_strips_in_store [("s", [("k", ["p\\q"])])] "S" "K" ["p\\q"]
    (by decide) (by decide) ⟨"p\\q", by decide, by decide⟩

theorem lowerStr_append (s t : String) :
    lowerStr (s ++ t) = lowerStr s ++ lowerStr t := by
  apply congrArg String.mk
  rw [String.data_append]
  exact List.map_append lowerChar s.data t.data

theorem hdr_lower (sec : String) (hsec : lowerStr sec = sec) :
    lowerStr ("[" ++ sec ++ "]") = "[" ++ sec ++ "]" := by
  rw [lowerStr_append, lowerStr_append, hsec]
  rfl

theorem hdr_data (sec : String) :
    ("[" ++ sec ++ "]").data = '[' :: (sec.data ++ [']']) := by
  simp only [String.data_append]
  rfl

theorem hasPfx_self (p : String) : hasPfx p p = true := by
  simp [hasPfx, List.isPrefixOf_iff_prefix]

theorem cfgSeekGo_skip_pre (sec key : String) (pre rest : List String)
    (line upper : Nat)
    (hpre : ∀ b ∈ pre, hasPfx ("[" ++ sec ++ "]") (lowerStr b) = false) :
    cfgSeekGo sec key (pre ++ rest) line upper ⟨false, false⟩ =
      cfgSeekGo sec key rest (line + pre.length) upper ⟨false, false⟩ := by
  induction pre generalizing line with
  | nil => simp
  | cons b t ih =>
    have hb := hpre b (by simp)
    have ht : ∀ b' ∈ t, hasPfx ("[" ++ sec ++ "]") (lowerStr b') = false :=
      fun b' hb' => hpre b' (by simp [hb'])
    have harr : line + 1 + t.length = line + (b :: t).length := by
      simp only [List.length_cons]
      omega
    simp only [List.cons_append, cfgSeekGo, List.append_eq]
    by_cases hc : (0 < (lowerStr b).data.length ∧
        (lowerStr b).data.headD ' ' = '#') ∨ (lowerStr b).data.length = 0
    · rw [if_pos hc, ih (line + 1) ht, harr]
    · rw [if_neg hc,
        if_neg (show ¬ hasPfx ("[" ++ sec ++ "]") (lowerStr b) = true by
          simp [hb]),
        if_pos True.intro, ih (line + 1) ht, harr]

theorem cfgSeekGo_body (sec key : String) (body rest : List String)
    (line upper : Nat) (hbody : ∀ b ∈ body, plainBody key b = true) :
    cfgSeekGo sec key (body ++ rest) line upper ⟨true, false⟩ =
      cfgSeekGo sec key rest (line + body.length) upper ⟨true, false⟩ := by
  induction body generalizing line with
  | nil => simp
  | cons b t ih =>
    have hb := hbody b (by simp)
    have ht : ∀ b' ∈ t, plainBody key b' = true :=
      fun b' hb' => hbody b' (by simp [hb'])
    have harr : line + 1 + t.length = line + (b :: t).length := by
      simp only [List.length_cons]
      omega
    simp only [plainBody, Bool.or_eq_true, Bool.and_eq_true, List.isEmpty_iff,
      beq_iff_eq, Bool.not_eq_true', beq_eq_false_iff_ne] at hb
    simp only [List.cons_append, cfgSeekGo, List.append_eq]
    by_cases hc : (0 < (lowerStr b).data.length ∧
        (lowerStr b).data.headD ' ' = '#') ∨ (lowerStr b).data.length = 0
    · rw [if_pos hc, ih (line + 1) ht, harr]
    · have hz : (lowerStr b).data.length ≠ 0 := fun h => hc (Or.inr h)
      have hnc : (lowerStr b).data.headD ' ' ≠ '#' :=
        fun h => hc (Or.inl ⟨Nat.pos_of_ne_zero hz, h⟩)
      have hb3 : (lowerStr b).data.headD ' ' ≠ '[' ∧
          (key.data.isPrefixOf (lowerStr b).data = false ∨
            trimStr (splitEqHead (lowerStr b)).data ≠ key) := by
        rcases hb with (hb | hb) | hb
        · exact absurd (by simp [hb] : (lowerStr b).data.length = 0) hz
        · exact absurd hb hnc
        · exact hb
      by_cases hp : key.data.isPrefixOf (lowerStr b).data = true
      · have hnt : trimStr (splitEqHead (lowerStr b)).data ≠ key := by
          rcases hb3.2 with h | h
          · simp [hp] at h
          · exact h
        rw [if_neg hc, if_neg hb3.1,
          if_pos (show True ∧ hasPfx key (lowerStr b) = true from
            ⟨trivial, by simpa [hasPfx] using hp⟩),
          if_neg hnt,
          if_neg (show ¬ ((upper, (⟨true, false⟩ : SeekFlags)).2.fKey = true ∧
              no_end_comma (lowerStr b) = true) by simp),
          ih (line + 1) ht, harr,
          if_neg (show ¬ (true = false) by simp)]
      · have hnp : key.data.isPrefixOf (lowerStr b).data = false :=
          Bool.eq_false_iff.mpr hp
        rw [if_neg hc, if_neg hb3.1,
          if_neg (show ¬ (True ∧ hasPfx key (lowerStr b) = true) by
            simp [hasPfx, hnp]),
          if_neg (show ¬ ((upper, (⟨true, false⟩ : SeekFlags)).2.fKey = true ∧
              no_end_comma (lowerStr b) = true) by simp),
          ih (line + 1) ht, harr,
          if_neg (show ¬ (true = false) by simp)]

theorem cfgSeek_section_then_header (pre body post : List String)
    (sec key nxt : String) (hsec : lowerStr sec = sec)
    (hpre : ∀ b ∈ pre, hasPfx ("[" ++ sec ++ "]") (lowerStr b) = false)
    (hbody : ∀ b ∈ body, plainBody key b = true)
    (hnxt : (lowerStr nxt).data.headD ' ' = '[' ∧ nxt.data ≠ []) :
    cfgSeek sec key (pre ++ ["[" ++ sec ++ "]"] ++ body ++ [nxt] ++ post) =
      (pre.length + 1, some (pre.length + 2), ⟨true, false⟩) := by
  have hL : pre ++ ["[" ++ sec ++ "]"] ++ body ++ [nxt] ++ post =
      pre ++ (("[" ++ sec ++ "]") :: (body ++ nxt :: post)) := by simp
  unfold cfgSeek
  rw [hL, cfgSeekGo_skip_pre sec key pre _ 0 0 hpre]
  simp only [cfgSeekGo]
  rw [hdr_lower sec hsec]
  rw [if_neg (show ¬ ((0 < ("[" ++ sec ++ "]").data.length ∧
      ("[" ++ sec ++ "]").data.headD ' ' = '#') ∨
      ("[" ++ sec ++ "]").data.length = 0) by rw [hdr_data]; simp)]
  rw [hasPfx_self, if_pos rfl, if_pos True.intro]
  rw [cfgSeekGo_body sec key body (nxt :: post) _ _ hbody]
  simp only [cfgSeekGo]
  have hlen : (lowerStr nxt).data.length ≠ 0 := by
    simp only [lowerStr, List.length_map]
    intro h0
    exact hnxt.2 (List.length_eq_zero.mp h0)
  have hnc : (lowerStr nxt).data.headD ' ' ≠ '#' := by
    rw [hnxt.1]
    decide
  rw [if_neg (show ¬ ((0 < (lowerStr nxt).data.length ∧
      (lowerStr nxt).data.headD ' ' = '#') ∨ (lowerStr nxt).data.length = 0) from
    fun h => h.elim (fun hh => hnc hh.2) hlen)]
  rw [if_neg (show ¬ (true = false) by simp)]
  rw [if_pos hnxt.1]
  simp [Nat.zero_add]

theorem cfgSeek_section_to_eof (pre body : List String) (sec key : String)
    (hsec : lowerStr sec = sec)
    (hpre : ∀ b ∈ pre, hasPfx ("[" ++ sec ++ "]") (lowerStr b) = false)
    (hbody : ∀ b ∈ body, plainBody key b = true) :
    cfgSeek sec key (pre ++ ["[" ++ sec ++ "]"] ++ body) =
      (pre.length + 1 + body.length, none, ⟨true, false⟩) := by
  have hL : pre ++ ["[" ++ sec ++ "]"] ++ body =
      pre ++ (("[" ++ sec ++ "]") :: body) := by simp
  unfold cfgSeek
  rw [hL, cfgSeekGo_skip_pre sec key pre _ 0 0 hpre]
  simp only [cfgSeekGo]
  rw [hdr_lower sec hsec]
  rw [if_neg (show ¬ ((0 < ("[" ++ sec ++ "]").data.length ∧
      ("[" ++ sec ++ "]").data.headD ' ' = '#') ∨
      ("[" ++ sec ++ "]").data.length = 0) by rw [hdr_data]; simp)]
  rw [hasPfx_self, if_pos rfl, if_pos True.intro]
  have hb2 := cfgSeekGo_body sec key body [] (0 + pre.length + 1)
    (0 + pre.length + 1) hbody
  rw [List.append_nil] at hb2
  rw [hb2]
  simp only [cfgSeekGo]
  simp [Nat.zero_add]

/-- C5 (amended): when `Set` targets a section that exists in the file and
a key that does not occur in that section before the next section header
(or end of file): if the section is followed by a later section header,
the new `key = values` block is inserted immediately after the section's
header line (not immediately before that next header, as originally
claimed); if the section extends to end of file, the block is appended at
end of file (immediately before the EOF boundary).  In both cases every
existing line of the file is preserved unchanged. -/
theorem setfile_new_key_insertion (pre body post : List String)
    (sec key nxt v0 : String) (vs : List String)
    (hsec : lowerStr sec = sec) (hkey : lowerStr key = key)
    (hfind : findReserved (v0 :: vs) = none)
    (hpre : ∀ b ∈ pre, hasPfx ("[" ++ sec ++ "]") (lowerStr b) = false)
    (hbody : ∀ b ∈ body, plainBody key b = true)
    (hnxt : (lowerStr nxt).data.headD ' ' = '[' ∧ nxt.data ≠ []) :
    SetFile (pre ++ ["[" ++ sec ++ "]"] ++ body ++ [nxt] ++ post) sec key (v0 :: vs) =
      .ok (pre ++ ["[" ++ sec ++ "]"] ++ commaJoin (valueLines key (v0 :: vs)) ++
        body ++ [nxt] ++ post) ∧
    SetFile (pre ++ ["[" ++ sec ++ "]"] ++ body) sec key (v0 :: vs) =
      .ok (pre ++ ["[" ++ sec ++ "]"] ++ body ++
        commaJoin (valueLines key (v0 :: vs))) := by
  constructor
  · have hseek := cfgSeek_section_then_header pre body post sec key nxt hsec hpre hbody hnxt
    simp only [SetFile, hfind, hsec, hkey, hseek]
    have htake : (pre ++ ["[" ++ sec ++ "]"] ++ body ++ [nxt] ++ post).take
        (pre.length + 1) = pre ++ ["[" ++ sec ++ "]"] := by
      have : pre ++ ["[" ++ sec ++ "]"] ++ body ++ [nxt] ++ post =
          (pre ++ ["[" ++ sec ++ "]"]) ++ (body ++ [nxt] ++ post) := by simp
      rw [this, show pre.length + 1 = (pre ++ ["[" ++ sec ++ "]"]).length by simp,
        List.take_left]
    have hdrop : (pre ++ ["[" ++ sec ++ "]"] ++ body ++ [nxt] ++ post).drop
        (pre.length + 2 - 1) = body ++ [nxt] ++ post := by
      have : pre ++ ["[" ++ sec ++ "]"] ++ body ++ [nxt] ++ post =
          (pre ++ ["[" ++ sec ++ "]"]) ++ (body ++ [nxt] ++ post) := by simp
      rw [this, show pre.length + 2 - 1 = (pre ++ ["[" ++ sec ++ "]"]).length by simp,
        List.drop_left]
    rw [htake, hdrop]
    simp [buildTxt, renderTxt]
  · have hseek := cfgSeek_section_to_eof pre body sec key hsec hpre hbody
    simp only [SetFile, hfind, hsec, hkey, hseek]
    have htake : (pre ++ ["[" ++ sec ++ "]"] ++ body).take
        (pre.length + 1 + body.length) = pre ++ ["[" ++ sec ++ "]"] ++ body := by
      have hlen : (pre ++ ["[" ++ sec ++ "]"] ++ body).length =
          pre.length + 1 + body.length := by
        simp
        omega
      rw [← hlen, List.take_length]
    rw [htake]
    simp [buildTxt, renderTxt]

/-- Witness for C5's amended theorem: both halves at a concrete file whose
section body line `k1 = v` starts with the sought key `k` without carrying
it (the key-occurrence check walks over it), once with a following `[t]`
section and once with the section running to end of file. -/
theorem setfile_new_key_insertion_witness :
    SetFile (["# c"] ++ ["[s]"] ++ ["k1 = v"] ++ ["[t]"] ++ ["k2 = w"]) "s" "k" ["x"] =
      .ok (["# c"] ++ ["[s]"] ++ commaJoin (valueLines "k" ["x"]) ++ ["k1 = v"] ++
        ["[t]"] ++ ["k2 = w"]) ∧
    SetFile (["# c"] ++ ["[s]"] ++ ["k1 = v"]) "s" "k" ["x"] =
      .ok (["# c"] ++ ["[s]"] ++ ["k1 = v"] ++ commaJoin (valueLines "k" ["x"])) :=
  setfile_new_key_insertion ["# c"] ["k1 = v"] ["k2 = w"] "s" "k" "[t]" "x" []
    (by decide) (by decide) (by decide) (by decide) (by decide) (by decide)

end Cfg
